import Mathlib

set_option maxRecDepth 16384

/-!
# Verification of the Ember sandboxed-execution engine

Shallow embedding, in Lean 4, of the pure computational core of the Ember
browser extension (`src/main.js` and the variants in `src/unnamed/`):
content classification, deduplication, sandbox document construction,
resize/terminal message routing, dependency resolution, frame identifiers,
self-heal decision logic and `escapeRegExp`.

JavaScript regular expressions appearing in the source are embedded through
a small Brzozowski-derivative matcher (`RE` below); each compiled pattern is
annotated with the JavaScript literal it translates.  JavaScript strings are
modelled as Lean `String`/`List Char`; `charCodeAt` indexing is modelled
through explicit UTF-16 code-unit sequences where the source hashes strings.
The only external facility that cannot be embedded — the browser's
JavaScript parser invoked via `new Function(code)` for the syntax pre-check
— is a parameter (`parses : String → Bool`) of the processing-pass model.
-/

namespace Ember

/-! ## Basic character/string utilities (JavaScript semantics) -/

/-- The brace and quote characters, written via code points. -/
def lbrace : Char := Char.ofNat 123

def rbrace : Char := Char.ofNat 125

def btick : Char := Char.ofNat 96

def squote : Char := Char.ofNat 39

def dquote : Char := Char.ofNat 34

def bslash : Char := Char.ofNat 92

/-- Whitespace per JavaScript `\s` / `String.prototype.trim` (ASCII part
plus NBSP and the BOM; the rarer Unicode space separators are omitted,
none of the texts in this development contain them). -/
def jsWhiteList : List Char :=
  [Char.ofNat 9, Char.ofNat 10, Char.ofNat 11, Char.ofNat 12, Char.ofNat 13,
   Char.ofNat 32, Char.ofNat 160, Char.ofNat 65279]

def isJsWhite (c : Char) : Bool := jsWhiteList.contains c

/-- JavaScript word characters `\w` = `[A-Za-z0-9_]`. -/
def isWordChar (c : Char) : Bool :=
  (('a' ≤ c ∧ c ≤ 'z') ∨ ('A' ≤ c ∧ c ≤ 'Z') ∨ ('0' ≤ c ∧ c ≤ '9') ∨ c = '_')

/-- All word characters, as an explicit list (used for regex char classes). -/
def wordCharList : List Char :=
  ((List.range 26).map (fun i => Char.ofNat (97 + i))) ++
  ((List.range 26).map (fun i => Char.ofNat (65 + i))) ++
  ((List.range 10).map (fun i => Char.ofNat (48 + i))) ++ ['_']

/-- Drop leading JS whitespace. -/
def dropJsWhite : List Char → List Char
  | [] => []
  | c :: cs => if isJsWhite c then dropJsWhite cs else c :: cs

/-- JavaScript `String.prototype.trim` on char lists: drop leading and
trailing whitespace. -/
def jsTrimL (l : List Char) : List Char :=
  (dropJsWhite ((dropJsWhite l).reverse)).reverse

/-- JavaScript `String.prototype.trim`. -/
def jsTrim (s : String) : String := (jsTrimL s.toList).asString

/-- `p` occurs in `t` starting at index `i` (literal substring occurrence). -/
def occursAt (t : List Char) (i : Nat) (p : List Char) : Bool :=
  decide ((t.drop i).take p.length = p)

/-- `p` matches at the head of `t`. -/
def headMatch : (p t : List Char) → Bool
  | [], _ => true
  | _ :: _, [] => false
  | p :: ps, t :: ts => p = t && headMatch ps ts

/-- Literal substring containment (JavaScript `String.prototype.includes`). -/
def containsSub : (t p : List Char) → Bool
  | t, p =>
    headMatch p t ||
      match t with
      | [] => false
      | _ :: ts => containsSub ts p

/-- First index at which `p` occurs in `t`, if any (JS `String.prototype.indexOf`). -/
def firstIndexOf : (t p : List Char) → Option Nat
  | t, p =>
    if headMatch p t then some 0
    else match t with
      | [] => none
      | _ :: ts => (firstIndexOf ts p).map (· + 1)

/-- JS `String.prototype.includes` on `String`s. -/
def jsIncludes (t p : String) : Bool := containsSub t.toList p.toList

/-- Replace every occurrence of `p` (non-overlapping, left to right) by `r`:
JavaScript `String.prototype.replace` with a global literal pattern. -/
def replaceAllSub (fuel : Nat) (t p r : List Char) : List Char :=
  match fuel with
  | 0 => t
  | fuel + 1 =>
    if p.isEmpty then t
    else if headMatch p t then r ++ replaceAllSub fuel (t.drop p.length) p r
    else match t with
      | [] => []
      | c :: ts => c :: replaceAllSub fuel ts p r

/-- Split `t` at the first occurrence of `p`: returns the part before and
the part after (the occurrence removed). -/
def splitAtFirst (t p : List Char) : Option (List Char × List Char) :=
  (firstIndexOf t p).map (fun i => (t.take i, t.drop (i + p.length)))

/-- Fuel-driven digit expansion (the fuel only needs to exceed the number
of digits; `decimalDigits` always supplies enough). -/
def decimalDigitsAux : Nat → Nat → List Nat
  | 0, n => [n]
  | fuel + 1, n =>
    if n < 10 then [n]
    else decimalDigitsAux fuel (n / 10) ++ [n % 10]

/-- The decimal digits of `n`, most significant first
(JavaScript `Number.prototype.toString` for non-negative integers). -/
def decimalDigits (n : Nat) : List Nat := decimalDigitsAux n n

def digitChar (d : Nat) : Char := Char.ofNat (48 + d)

/-- Decimal string of a natural number (JS number-to-string). -/
def decimalString (n : Nat) : String :=
  ((decimalDigits n).map digitChar).asString

/-- UTF-16 code units of one character (JavaScript string element model). -/
def utf16Units (c : Char) : List Nat :=
  if c.toNat < 65536 then [c.toNat]
  else [55296 + (c.toNat - 65536) / 1024, 56320 + (c.toNat - 65536) % 1024]

/-- UTF-16 code units of a string, in order. -/
def stringUtf16 (s : String) : List Nat := s.toList.flatMap utf16Units

/-- Wrap an integer to JavaScript 32-bit two's-complement (`x | 0` / `x & x`). -/
def toInt32 (n : Int) : Int := (n + 2 ^ 31) % 2 ^ 32 - 2 ^ 31

/-- One step of the rolling hash: `hash = ((hash << 5) - hash) + char; hash &= hash`.
JavaScript `<<` wraps its result to Int32 before the subtraction. -/
def simpleHashStep (h : Int) (u : Nat) : Int :=
  toInt32 (toInt32 (h * 32) - h + u)

/-- `simpleHash` from `src/unnamed/part_000` lines 530-539: 32-bit rolling
hash over UTF-16 code units, absolute value taken at the end. -/
def simpleHash (s : String) : Nat :=
  let units := stringUtf16 s
  if units.isEmpty then 0
  else Int.natAbs (units.foldl simpleHashStep 0)

/-- `simpleHash(str).toString().substring(0, 10)` — the dedup tag used by
`processMessage` / `processScriptTagsInHTML`. -/
def hashTag (s : String) : String :=
  ((decimalString (simpleHash s)).toList.take 10).asString

/-! ## A small regular-expression engine (Brzozowski derivatives)

Used to embed the JavaScript regex literals of the source.  Character
classes are finite `oneOf` / complement `noneOf` lists, which suffices for
every pattern in the repository (`\w`, `\s`, `.`, explicit classes). -/

/-- Character class: membership or complement of an explicit char list. -/
inductive CC where
  | oneOf (l : List Char)
  | noneOf (l : List Char)
deriving DecidableEq

def CC.test : CC → Char → Bool
  | .oneOf l, c => l.contains c
  | .noneOf l, c => !(l.contains c)

/-- Regular expressions. -/
inductive RE where
  | emp
  | eps
  | cls (c : CC)
  | cat (a b : RE)
  | alt (a b : RE)
  | star (a : RE)
deriving DecidableEq

/-- Smart concatenation (keeps derivatives small). -/
def catS : RE → RE → RE
  | .emp, _ => .emp
  | _, .emp => .emp
  | .eps, b => b
  | a, .eps => a
  | a, b => .cat a b

/-- Smart alternation. -/
def altS : RE → RE → RE
  | .emp, b => b
  | a, .emp => a
  | a, b => .alt a b

def nullable : RE → Bool
  | .emp => false
  | .eps => true
  | .cls _ => false
  | .cat a b => nullable a && nullable b
  | .alt a b => nullable a || nullable b
  | .star _ => true

/-- Brzozowski derivative with respect to one character. -/
def deriv : RE → Char → RE
  | .emp, _ => .emp
  | .eps, _ => .emp
  | .cls cc, c => if cc.test c then .eps else .emp
  | .cat a b, c =>
    if nullable a then altS (catS (deriv a c) b) (deriv b c)
    else catS (deriv a c) b
  | .alt a b, c => altS (deriv a c) (deriv b c)
  | .star a, c => catS (deriv a c) (.star a)

/-- Whole-list matching by iterated derivatives. -/
def reMatchL (r : RE) (s : List Char) : Bool :=
  nullable (s.foldl deriv r)

/-- Any character (`[\s\S]`). -/
def anyC : RE := .cls (.noneOf [])

/-- Any character except line terminators (JavaScript `.`). -/
def dotC : RE := .cls (.noneOf [Char.ofNat 10, Char.ofNat 13, Char.ofNat 8232, Char.ofNat 8233])

def anyStar : RE := .star anyC

def wsC : RE := .cls (.oneOf jsWhiteList)

def wordC : RE := .cls (.oneOf wordCharList)

def nonwordC : RE := .cls (.noneOf wordCharList)

def litC (c : Char) : RE := .cls (.oneOf [c])

/-- Literal character sequence. -/
def litL : List Char → RE
  | [] => .eps
  | c :: cs => .cat (litC c) (litL cs)

def litS (s : String) : RE := litL s.toList

/-- Case-insensitive literal (for `/.../i` patterns). -/
def ciLitL : List Char → RE
  | [] => .eps
  | c :: cs => .cat (.cls (.oneOf [c.toLower, c.toUpper])) (ciLitL cs)

def ciLitS (s : String) : RE := ciLitL s.toList

def plusRE (r : RE) : RE := .cat r (.star r)

def optRE (r : RE) : RE := .alt r .eps

def altN : List RE → RE
  | [] => .emp
  | [r] => r
  | r :: rs => .alt r (altN rs)

def catN : List RE → RE
  | [] => .eps
  | [r] => r
  | r :: rs => .cat r (catN rs)

/-- Unanchored `RegExp.prototype.test`: some substring matches `r`. -/
def reTest (r : RE) (s : String) : Bool :=
  reMatchL (.cat anyStar (.cat r anyStar)) s.toList

/-- `\b` context before a token: if the token starts with a word character
the match may sit at the string start or after a non-word character; if it
starts with a non-word character, a word character must precede. -/
def wbPre (firstIsWord : Bool) : RE :=
  if firstIsWord then .alt .eps (.cat anyStar nonwordC)
  else .cat anyStar wordC

/-- `\b` context after a token (mirror of `wbPre`). -/
def wbPost (lastIsWord : Bool) : RE :=
  if lastIsWord then .alt .eps (.cat nonwordC anyStar)
  else .cat wordC anyStar

/-- Test for `\b●\b` patterns: the core surrounded by word boundaries,
searched anywhere in the string.  Each alternative carries the word-ness of
its first and last characters. -/
def wbTest (alts : List (RE × Bool × Bool)) (s : String) : Bool :=
  alts.any (fun a => reMatchL (.cat (wbPre a.2.1) (.cat a.1 (wbPost a.2.2))) s.toList)

/-- A plain keyword alternative (word characters at both ends). -/
def kw (w : String) : RE × Bool × Bool := (litS w, true, true)

/-! ## Content Classifier (`detectJavaScriptContent`, part_000 lines 543-613)

Each definition below embeds the JavaScript regex quoted in its comment. -/

def asciiLetters : List Char :=
  ((List.range 26).map (fun i => Char.ofNat (97 + i))) ++
  ((List.range 26).map (fun i => Char.ofNat (65 + i)))

/-- `/<script\b[^>]*>[\s\S]*?<\/script>/i` — after `script` the `\b`
requires a non-word character (possibly the closing `>` itself). -/
def hasScriptTags (s : String) : Bool :=
  reTest (catN
    [ciLitS "<script",
     .alt (litC '>')
       (catN [.cls (.noneOf (wordCharList ++ ['>'])), .star (.cls (.noneOf ['>'])), litC '>']),
     anyStar,
     ciLitS "</script>"]) s

/-- `/\bimport\s+.*\s+from\s+['"][^'"]+['"]/` (`.` excludes line terminators). -/
def hasES6Imports (s : String) : Bool :=
  reMatchL (.cat (wbPre true) (.cat (catN
    [litS "import", plusRE wsC, .star dotC, plusRE wsC, litS "from", plusRE wsC,
     .cls (.oneOf [squote, dquote]),
     plusRE (.cls (.noneOf [squote, dquote])),
     .cls (.oneOf [squote, dquote])]) anyStar)) s.toList

/-- `/\b(const|let|var|function|=>\||addEventListener|document\.)\b/`. -/
def hasJSInHTML (s : String) : Bool :=
  wbTest
    [kw "const", kw "let", kw "var", kw "function",
     (litS "=>|", false, false), kw "addEventListener",
     (litS "document.", true, false)] s

/-- `/\b(const|let|var|function|class|if|else|for|while|return|new|this|try|catch|finally|async|await|export|import)\b/`. -/
def hasJSKeywords (s : String) : Bool :=
  wbTest
    [kw "const", kw "let", kw "var", kw "function", kw "class", kw "if",
     kw "else", kw "for", kw "while", kw "return", kw "new", kw "this",
     kw "try", kw "catch", kw "finally", kw "async", kw "await",
     kw "export", kw "import"] s

/-- `/\b(document\.|window\.|\.getElementById|\.querySelector|\.createElement|\.appendChild|\.addEventListener)\b/`. -/
def hasDOMManipulation (s : String) : Bool :=
  wbTest
    [(litS "document.", true, false), (litS "window.", true, false),
     (litS ".getElementById", false, true), (litS ".querySelector", false, true),
     (litS ".createElement", false, true), (litS ".appendChild", false, true),
     (litS ".addEventListener", false, true)] s

/-- `/\b(\.push|\.pop|\.map|\.filter|\.forEach|\.reduce|\.find|\.some|\.every|console\.log|JSON\.|Math\.)\b/`. -/
def hasJSMethods (s : String) : Bool :=
  wbTest
    [(litS ".push", false, true), (litS ".pop", false, true),
     (litS ".map", false, true), (litS ".filter", false, true),
     (litS ".forEach", false, true), (litS ".reduce", false, true),
     (litS ".find", false, true), (litS ".some", false, true),
     (litS ".every", false, true), (litS "console.log", true, true),
     (litS "JSON.", true, false), (litS "Math.", true, false)] s

/-- `/=>\s*[\{\(]/`. -/
def hasArrowFunctions (s : String) : Bool :=
  reTest (catN [litS "=>", .star wsC, .cls (.oneOf [lbrace, '('])]) s

/-- `/[=!]==|&&|\|\||\.\.\.|\?\?|\?\./`. -/
def hasJSOperators (s : String) : Bool :=
  reTest (altN
    [litS "===", litS "!==", litS "&&", litS "||",
     litS "...", litS "??", litS "?."]) s

/-- `/\/[^\/\n]+\/[gimuy]*/`. -/
def hasRegexLiterals (s : String) : Bool :=
  reTest (catN
    [litC '/', plusRE (.cls (.noneOf ['/', Char.ofNat 10])), litC '/',
     .star (.cls (.oneOf ['g', 'i', 'm', 'u', 'y']))]) s

/-- `` /`[^`]*\$\{[^}]*\}[^`]*`/ ``. -/
def hasTemplateLiterals (s : String) : Bool :=
  reTest (catN
    [litC btick, .star (.cls (.noneOf [btick])), litC '$', litC lbrace,
     .star (.cls (.noneOf [rbrace])), litC rbrace,
     .star (.cls (.noneOf [btick])), litC btick]) s

/-- `/^\s*<[a-zA-Z]/` — "doesn't start with HTML tag" check. -/
def beginsHtmlTag (s : String) : Bool :=
  reMatchL (catN [.star wsC, litC '<', .cls (.oneOf asciiLetters), anyStar]) s.toList

/-- `/^\s*[a-zA-Z#.][^{]*\{/` — "doesn't start with CSS rule" check. -/
def beginsCssRule (s : String) : Bool :=
  reMatchL (catN
    [.star wsC, .cls (.oneOf (asciiLetters ++ ['#', '.'])),
     .star (.cls (.noneOf [lbrace])), litC lbrace, anyStar]) s.toList

/-- Result record of `detectJavaScriptContent` (the source returns an object
with these fields). -/
structure JsDetection where
  isJavaScript : Bool
  isDirectJavaScript : Bool
  isHtmlWithJavaScript : Bool
  isContentBasedJavaScript : Bool
  scriptTagged : Bool
  contentBasedScore : Nat
deriving DecidableEq

/-- `detectJavaScriptContent(className, codeContent)`, part_000 lines 543-613. -/
def detectJavaScriptContent (className codeContent : String) : JsDetection :=
  let isDirectJavaScript :=
    jsIncludes className "javascript" || jsIncludes className "lang-js" ||
    jsIncludes className "js"
  let scriptTagged := hasScriptTags codeContent
  let isHtmlWithJavaScript :=
    (jsIncludes className "html" || jsIncludes className "xml") &&
    (scriptTagged || hasES6Imports codeContent || hasJSInHTML codeContent)
  let contentBasedScore :=
    ([hasJSKeywords codeContent, hasDOMManipulation codeContent,
      hasJSMethods codeContent, hasArrowFunctions codeContent,
      hasJSOperators codeContent, hasRegexLiterals codeContent,
      hasTemplateLiterals codeContent].filter id).length
  let isContentBasedJavaScript :=
    !jsIncludes className "html" && !jsIncludes className "xml" &&
    !jsIncludes className "css" &&
    !isDirectJavaScript && !isHtmlWithJavaScript &&
    decide (2 ≤ contentBasedScore) &&
    !beginsHtmlTag codeContent &&
    !beginsCssRule codeContent
  { isJavaScript := isDirectJavaScript || isHtmlWithJavaScript || isContentBasedJavaScript,
    isDirectJavaScript := isDirectJavaScript,
    isHtmlWithJavaScript := isHtmlWithJavaScript,
    isContentBasedJavaScript := isContentBasedJavaScript,
    scriptTagged := scriptTagged,
    contentBasedScore := contentBasedScore }

/-! ## HTML-entity decoding and script-tag extraction
(`extractJavaScriptFromHTML`, part_000 lines 1118-1203) -/

/-- The entity-decoding chain applied by `processMessage` /
`extractJavaScriptFromHTML`: seven sequential global replaces, in source
order (`&lt; &gt; &amp; &quot; &#x27; &#39; &nbsp;`). -/
def entityDecodeL (t : List Char) : List Char :=
  let rep := fun (l : List Char) (p r : String) =>
    replaceAllSub (l.length + 1) l p.toList r.toList
  rep (rep (rep (rep (rep (rep (rep t
    "&lt;" "<") "&gt;" ">") "&amp;" "&") "&quot;" "\"")
    "&#x27;" "\x27") "&#39;" "\x27") "&nbsp;" " "

def entityDecode (s : String) : String := (entityDecodeL s.toList).asString

/-- Case-insensitive head match, `p` given in lower case. -/
def ciHeadMatch : (p t : List Char) → Bool
  | [], _ => true
  | _ :: _, [] => false
  | p :: ps, t :: ts => p = t.toLower && ciHeadMatch ps ts

/-- If `t` begins with `<script\b[^>]*>` (case-insensitive), the length of
that opening tag. -/
def scriptOpenLen (t : List Char) : Option Nat :=
  if ciHeadMatch "<script".toList t then
    let rest := t.drop 7
    match rest with
    | [] => none
    | c :: _ =>
      if isWordChar c then none
      else (firstIndexOf rest ['>']).map (fun i => 7 + i + 1)
  else none

/-- If `t` begins with a full `<script\b[^>]*>[\s\S]*?<\/script>` match:
`(total length, inner-content start, inner-content length)`. -/
def scriptMatchAt (t : List Char) : Option (Nat × Nat × Nat) :=
  (scriptOpenLen t).bind (fun o =>
    (firstIndexOf (t.drop o) "</script>".toList).map (fun k => (o + k + 9, o, k)))

/-- All full matches of `/<script\b[^>]*>([\s\S]*?)<\/script>/gi`, scanning
left to right and resuming after each match. -/
def collectScriptMatches : (fuel : Nat) → List Char → List (List Char)
  | 0, _ => []
  | _, [] => []
  | fuel + 1, t =>
    match scriptMatchAt t with
    | some (len, _, _) => t.take len :: collectScriptMatches fuel (t.drop len)
    | none =>
      match t with
      | [] => []
      | _ :: ts => collectScriptMatches fuel ts

/-- Global replace of `/<script\b[^>]*>|<\/script>/gi` by the empty string. -/
def stripScriptTags : (fuel : Nat) → List Char → List Char
  | 0, t => t
  | _, [] => []
  | fuel + 1, t =>
    match scriptOpenLen t with
    | some o => stripScriptTags fuel (t.drop o)
    | none =>
      if ciHeadMatch "</script>".toList t then stripScriptTags fuel (t.drop 9)
      else match t with
        | [] => []
        | c :: ts => c :: stripScriptTags fuel ts

/-- Group 1 of `/<script[^>]*>([\s\S]*?)(?:<\/script>|$)/i` (no `\b` in this
one): content after the first script opening tag, up to the first closing
tag or the end of the string. -/
def scriptSectionContent (t : List Char) : Option (List Char) :=
  (firstIndexOf (t.map Char.toLower) "<script".toList).bind (fun i =>
    let rest := t.drop (i + 7)
    (firstIndexOf rest ['>']).map (fun g =>
      let inner := rest.drop (g + 1)
      match firstIndexOf (inner.map Char.toLower) "</script>".toList with
      | some e => inner.take e
      | none => inner))

/-- Split on a character (JavaScript `String.prototype.split`). -/
def splitOnChar (c : Char) : List Char → List (List Char)
  | [] => [[]]
  | x :: xs =>
    let r := splitOnChar c xs
    if x = c then [] :: r
    else match r with
      | [] => [[x]]
      | h :: t => (x :: h) :: t

/-- Join with a separator. -/
def joinSep (sep : List Char) : List (List Char) → List Char
  | [] => []
  | [l] => l
  | l :: ls => l ++ sep ++ joinSep sep ls

/-- `/^\s*(import\s+.*from|\/\/\s*Import|const\s+\w+\s*=|let\s+\w+\s*=|var\s+\w+\s*=|function\s+\w+|class\s+\w+)/`
— a line that clearly starts JavaScript. -/
def jsLineStart (line : List Char) : Bool :=
  reMatchL (catN
    [.star wsC,
     altN
       [catN [litS "import", plusRE wsC, .star dotC, litS "from"],
        catN [litS "//", .star wsC, litS "Import"],
        catN [litS "const", plusRE wsC, plusRE wordC, .star wsC, litC '='],
        catN [litS "let", plusRE wsC, plusRE wordC, .star wsC, litC '='],
        catN [litS "var", plusRE wsC, plusRE wordC, .star wsC, litC '='],
        catN [litS "function", plusRE wsC, plusRE wordC],
        catN [litS "class", plusRE wsC, plusRE wordC]],
     anyStar]) line

/-- `/^\s*[a-zA-Z#.][^{]*\{[\s\S]*\}?\s*$/` — a CSS-rule-like line. -/
def cssRuleLine (line : List Char) : Bool :=
  reMatchL (catN
    [.star wsC, .cls (.oneOf (asciiLetters ++ ['#', '.'])),
     .star (.cls (.noneOf [lbrace])), litC lbrace, anyStar,
     optRE (litC rbrace), .star wsC]) line

/-- `/^\s*[a-zA-Z-]+\s*:\s*[^;]+;\s*$/` — a CSS-property-like line. -/
def cssPropLine (line : List Char) : Bool :=
  reMatchL (catN
    [.star wsC, plusRE (.cls (.oneOf (asciiLetters ++ ['-']))), .star wsC,
     litC ':', .star wsC, plusRE (.cls (.noneOf [';'])), litC ';',
     .star wsC]) line

/-- `/^\s*<\/?[a-zA-Z]/` — an HTML-tag line. -/
def htmlTagLine (line : List Char) : Bool :=
  reMatchL (catN
    [.star wsC, litC '<', optRE (litC '/'), .cls (.oneOf asciiLetters),
     anyStar]) line

/-- `/\b(import|export|const|let|var|function|class|if|for|while|return|=>\||\.addEventListener|\.querySelector|new\s+\w+|console\.|document\.|window\.)\b/`. -/
def jsLikeLine (line : List Char) : Bool :=
  wbTest
    [kw "import", kw "export", kw "const", kw "let", kw "var",
     kw "function", kw "class", kw "if", kw "for", kw "while", kw "return",
     (litS "=>|", false, false),
     (litS ".addEventListener", false, true),
     (litS ".querySelector", false, true),
     (catN [litS "new", plusRE wsC, plusRE wordC], true, true),
     (litS "console.", true, false),
     (litS "document.", true, false),
     (litS "window.", true, false)] line.asString

/-- `/^\s*\/\//` — a comment line. -/
def commentLine (line : List Char) : Bool :=
  reMatchL (catN [.star wsC, litS "//", anyStar]) line

/-- `/^\s*\}[,;]?\s*$/` — a closing-brace line. -/
def braceLine (line : List Char) : Bool :=
  reMatchL (catN
    [.star wsC, litC rbrace, optRE (.cls (.oneOf [',', ';'])), .star wsC]) line

/-- The JS-line filter of the fallback branch (part_000 lines 1173-1184):
exclusions are tested first, on the trimmed line. -/
def keepJsLine (line : List Char) : Bool :=
  let tl := jsTrimL line
  if cssRuleLine tl then false
  else if cssPropLine tl then false
  else if htmlTagLine tl then false
  else jsLikeLine tl || commentLine tl || braceLine tl

/-- `extractJavaScriptFromHTML(codeContent, jsDetection)`, part_000 lines
1118-1203. -/
def extractJavaScriptFromHTML (codeContent : String) (det : JsDetection) : String :=
  let t := codeContent.toList
  if det.scriptTagged then
    match collectScriptMatches (t.length + 1) t with
    | [] => codeContent
    | ms =>
      (joinSep "\n\n".toList
        ((ms.map (fun m => jsTrimL (entityDecodeL (stripScriptTags (m.length + 1) m)))).filter
          (fun c => c.length ≠ 0))).asString
  else
    let scriptContent :=
      match scriptSectionContent t with
      | some sc => sc
      | none =>
        let lines := splitOnChar (Char.ofNat 10) t
        match lines.findIdx? (fun l => jsLineStart (jsTrimL l)) with
        | some i => joinSep [Char.ofNat 10] (lines.drop i)
        | none => joinSep [Char.ofNat 10] (lines.filter keepJsLine)
    (entityDecodeL scriptContent).asString

/-! ## Message Processor pass over code blocks
(`processMessage`, part_000 lines 929-1115)

A fragment is one `pre > code` element: its class attribute and its
`innerText`.  The per-pass mutable state is `processedScriptHashes`, the
Dedup Ledger.  Library fetching is modelled as succeeding; the browser's
JavaScript parser (`new Function(code)`, used as syntax pre-check) is the
parameter `parses`. -/

structure Fragment where
  className : String
  innerText : String
deriving DecidableEq

/-- Fate of one code block in a pass, mirroring the `data-ember-processed`
markings: not detected as JavaScript; skipped because empty; hidden as a
duplicate; rejected by the syntax pre-check (`data-ember-processed =
"syntax-error"`); or executed in a fresh sandbox iframe. -/
inductive BlockOutcome where
  | notJs
  | skippedEmpty
  | duplicate
  | parseErr
  | created
deriving DecidableEq

/-- `codeContent = codeBlock.innerText.trim()`. -/
def fragContent (f : Fragment) : String := jsTrim f.innerText

def fragDetect (f : Fragment) : JsDetection :=
  detectJavaScriptContent f.className (fragContent f)

/-- `javascriptCode`: extracted from HTML when classified as
HTML-with-JavaScript, otherwise the entity-decoded content
(part_000 lines 1004-1019). -/
def fragCode (f : Fragment) : String :=
  if (fragDetect f).isHtmlWithJavaScript then
    extractJavaScriptFromHTML (fragContent f) (fragDetect f)
  else entityDecode (fragContent f)

/-- `codeHash = simpleHash(javascriptCode.trim()).toString().substring(0, 10)`. -/
def fragHash (f : Fragment) : String := hashTag (jsTrim (fragCode f))

/-- Outcome of one code block given the hashes recorded so far. -/
def stepOutcome (parses : String → Bool) (hs : List String) (f : Fragment) :
    BlockOutcome :=
  if !(fragDetect f).isJavaScript then .notJs
  else if jsTrim (fragContent f) = "" then .skippedEmpty
  else if hs.contains (fragHash f) then .duplicate
  else if parses (fragCode f) then .created
  else .parseErr

/-- Dedup Ledger after one code block: the hash is recorded before the
syntax pre-check runs (part_000 line 1031), so both `created` and
`parseErr` blocks record it. -/
def stepHashes (hs : List String) (f : Fragment) : List String :=
  if !(fragDetect f).isJavaScript then hs
  else if jsTrim (fragContent f) = "" then hs
  else if hs.contains (fragHash f) then hs
  else fragHash f :: hs

/-- One processing pass over the message's code blocks, producing the
outcome of each block in order.  `hs` is the initial Dedup Ledger (hashes
already recorded by the raw-HTML script pre-pass). -/
def processPass (parses : String → Bool) (hs : List String) :
    List Fragment → List BlockOutcome
  | [] => []
  | f :: fs => stepOutcome parses hs f :: processPass parses (stepHashes hs f) fs

/-! ### Dedup Ledger lemmas -/

theorem mem_stepHashes_of_mem {h0 : String} (hs : List String) (f : Fragment)
    (h : h0 ∈ hs) : h0 ∈ stepHashes hs f := by
  unfold stepHashes
  split_ifs <;> simp [h]

theorem fragHash_mem_stepHashes {parses : String → Bool} {hs : List String}
    {f : Fragment}
    (h : stepOutcome parses hs f = .created ∨ stepOutcome parses hs f = .parseErr) :
    fragHash f ∈ stepHashes hs f := by
  unfold stepOutcome at h
  unfold stepHashes
  split_ifs at h ⊢ <;> simp_all

theorem stepOutcome_duplicate {parses : String → Bool} {hs : List String}
    {f : Fragment}
    (hjs : (fragDetect f).isJavaScript = true)
    (hne : jsTrim (fragContent f) ≠ "")
    (hmem : fragHash f ∈ hs) :
    stepOutcome parses hs f = .duplicate := by
  have hc : hs.contains (fragHash f) = true := List.elem_iff.mpr hmem
  unfold stepOutcome
  simp [hjs, hne, hc, hmem]

theorem processPass_duplicate_of_mem {parses : String → Bool} :
    ∀ (frags : List Fragment) (hs : List String) (j : Nat) (fj : Fragment),
    frags.get? j = some fj →
    fragHash fj ∈ hs →
    (fragDetect fj).isJavaScript = true →
    jsTrim (fragContent fj) ≠ "" →
    (processPass parses hs frags).get? j = some .duplicate := by
  intro frags
  induction frags with
  | nil => intro hs j fj hget; simp at hget
  | cons f fs ih =>
    intro hs j fj hget hmem hjs hne
    cases j with
    | zero =>
      simp at hget
      subst hget
      simpa [processPass] using stepOutcome_duplicate hjs hne hmem
    | succ j =>
      simp only [List.get?_cons_succ] at hget
      simpa [processPass] using
        ih (stepHashes hs f) j fj hget (mem_stepHashes_of_mem hs f hmem) hjs hne

theorem stepOutcome_created_parses {parses : String → Bool} {hs : List String}
    {f : Fragment} (h : stepOutcome parses hs f = .created) :
    parses (fragCode f) = true := by
  unfold stepOutcome at h
  split_ifs at h
  all_goals simp_all

theorem processPass_created_parses {parses : String → Bool} :
    ∀ (frags : List Fragment) (hs : List String) (i : Nat) (fi : Fragment),
    frags.get? i = some fi →
    (processPass parses hs frags).get? i = some .created →
    parses (fragCode fi) = true := by
  intro frags
  induction frags with
  | nil => intro hs i fi hget; simp at hget
  | cons f fs ih =>
    intro hs i fi hget hout
    cases i with
    | zero =>
      simp at hget
      subst hget
      simp [processPass] at hout
      exact stepOutcome_created_parses hout
    | succ i =>
      simp only [List.get?_cons_succ] at hget
      simp only [processPass, List.get?_cons_succ] at hout
      exact ih (stepHashes hs f) i fi hget hout

theorem stepOutcome_created_of_fresh {parses : String → Bool} {hs : List String}
    {f : Fragment}
    (hjs : (fragDetect f).isJavaScript = true)
    (hne : jsTrim (fragContent f) ≠ "")
    (hfresh : fragHash f ∉ hs)
    (hp : parses (fragCode f) = true) :
    stepOutcome parses hs f = .created := by
  unfold stepOutcome
  simp [hjs, hne, hfresh, hp]

theorem stepOutcome_parseErr_of_fresh {parses : String → Bool} {hs : List String}
    {f : Fragment}
    (hjs : (fragDetect f).isJavaScript = true)
    (hne : jsTrim (fragContent f) ≠ "")
    (hfresh : fragHash f ∉ hs)
    (hp : parses (fragCode f) = false) :
    stepOutcome parses hs f = .parseErr := by
  unfold stepOutcome
  simp [hjs, hne, hfresh, hp]

theorem processPass_pair {parses : String → Bool} :
    ∀ (frags : List Fragment) (hs : List String) (i j : Nat) (fi fj : Fragment),
    i < j →
    frags.get? i = some fi → frags.get? j = some fj →
    fragHash fi = fragHash fj →
    (fragDetect fj).isJavaScript = true →
    jsTrim (fragContent fj) ≠ "" →
    ((processPass parses hs frags).get? i = some .created ∨
      (processPass parses hs frags).get? i = some .parseErr) →
    (processPass parses hs frags).get? j = some .duplicate := by
  intro frags
  induction frags with
  | nil => intro hs i j fi fj hij hgi; simp at hgi
  | cons f fs ih =>
    intro hs i j fi fj hij hgi hgj hhash hjs hne hout
    obtain ⟨j', rfl⟩ : ∃ j', j = j' + 1 := ⟨j - 1, by omega⟩
    simp only [List.get?_cons_succ] at hgj
    cases i with
    | zero =>
      simp only [List.get?_cons_zero, Option.some.injEq] at hgi
      subst hgi
      have hstep : stepOutcome parses hs f = .created ∨
          stepOutcome parses hs f = .parseErr := by
        simpa [processPass] using hout
      have hmem : fragHash fj ∈ stepHashes hs f := by
        rw [← hhash]
        exact fragHash_mem_stepHashes hstep
      simp only [processPass, List.get?_cons_succ]
      exact processPass_duplicate_of_mem fs (stepHashes hs f) j' fj hgj hmem hjs hne
    | succ i' =>
      simp only [List.get?_cons_succ] at hgi
      simp only [processPass, List.get?_cons_succ] at hout ⊢
      exact ih (stepHashes hs f) i' j' fi fj (by omega) hgi hgj hhash hjs hne hout

/-- The concrete code fragment `const x =` in a ` ```javascript ` fence:
a standard code block whose source fails the JavaScript syntax check
(`new Function("const x =")` throws a `SyntaxError`). -/
def fragConstX : Fragment := ⟨"language-javascript", "const x ="⟩

/-- The model of `new Function` for runs where the offered source does not
parse (it is exact for `fragConstX`, whose code `const x =` is rejected by
every JavaScript parser). -/
def neverParses : String → Bool := fun _ => false

/-- C2, counterexample: two occurrences of the identical (trimmed) source
`const x =` in one pass produce NO Execution Context at all — the first is
rejected by the syntax pre-check after its hash is recorded, the second is
marked duplicate — refuting "exactly one Execution Context is created for
that source". -/
theorem c2_counterexample :
    processPass neverParses [] [fragConstX, fragConstX] =
      [.parseErr, .duplicate] ∧
    (processPass neverParses [] [fragConstX, fragConstX]).count .created = 0 := by
  decide

/-- C2 (amended): within one processing pass, at most one Execution Context
is created per normalized source — once an occurrence of a hash has been
recorded (context created, or syntax pre-check failed), every later
detected, non-empty code block with the same hash is marked duplicate and
hidden, with no second context; and a fresh, detected, non-empty block
whose source passes the syntax pre-check does get exactly its one
context. -/
theorem c2_theorem :
    (∀ (parses : String → Bool) (hs : List String) (frags : List Fragment)
        (i j : Nat) (fi fj : Fragment),
      i < j →
      frags.get? i = some fi → frags.get? j = some fj →
      fragHash fi = fragHash fj →
      (fragDetect fj).isJavaScript = true →
      jsTrim (fragContent fj) ≠ "" →
      ((processPass parses hs frags).get? i = some .created ∨
        (processPass parses hs frags).get? i = some .parseErr) →
      (processPass parses hs frags).get? j = some .duplicate) ∧
    (∀ (parses : String → Bool) (hs : List String) (f : Fragment),
      (fragDetect f).isJavaScript = true →
      jsTrim (fragContent f) ≠ "" →
      fragHash f ∉ hs →
      parses (fragCode f) = true →
      stepOutcome parses hs f = .created) :=
  ⟨fun _ hs frags i j fi fj hij hgi hgj hh hjs hne hout =>
      processPass_pair frags hs i j fi fj hij hgi hgj hh hjs hne hout,
   fun _ _ _ hjs hne hfresh hp => stepOutcome_created_of_fresh hjs hne hfresh hp⟩

/-- Witness for C2 at a concrete pass: the second occurrence of a valid
block is marked duplicate, the first got the only context. -/
theorem c2_witness :
    (processPass (fun _ => true) [] [fragConstX, fragConstX]).get? 1 =
      some .duplicate :=
  c2_theorem.1 (fun _ => true) [] [fragConstX, fragConstX] 0 1 fragConstX
    fragConstX (by omega) rfl rfl rfl (by decide) (by decide)
    (Or.inl (by decide))

/-- C5: a code fragment whose source fails the syntax pre-check
(`new Function` throws) never gets an Execution Context anywhere in a pass,
and a fresh, detected, non-empty such fragment is classified
`syntax-error`. -/
theorem c5_theorem :
    (∀ (parses : String → Bool) (hs : List String) (frags : List Fragment)
        (i : Nat) (fi : Fragment),
      frags.get? i = some fi →
      parses (fragCode fi) = false →
      (processPass parses hs frags).get? i ≠ some .created) ∧
    (∀ (parses : String → Bool) (hs : List String) (f : Fragment),
      (fragDetect f).isJavaScript = true →
      jsTrim (fragContent f) ≠ "" →
      fragHash f ∉ hs →
      parses (fragCode f) = false →
      stepOutcome parses hs f = .parseErr) :=
  ⟨fun _ hs frags i fi hgi hp hout => by
      have := processPass_created_parses frags hs i fi hgi hout
      rw [hp] at this
      exact Bool.false_ne_true this,
   fun _ _ _ hjs hne hfresh hp => stepOutcome_parseErr_of_fresh hjs hne hfresh hp⟩

/-- Witness for C5: the invalid block `const x =` is classified
syntax-error and no context is created. -/
theorem c5_witness :
    stepOutcome neverParses [] fragConstX = .parseErr ∧
    (processPass neverParses [] [fragConstX]).get? 0 ≠ some .created :=
  ⟨c5_theorem.2 neverParses [] fragConstX (by decide) (by decide)
      (by simp) rfl,
   c5_theorem.1 neverParses [] [fragConstX] 0 fragConstX rfl rfl⟩

/-! ## Dependency Resolver (`BUILT_IN_LIBRARIES`, main.js lines 9-16 and
617-619; legacy variant part_000 lines 1641-1649) -/

/-- One entry of the trusted registry (the source field `alias` is named
`aliasName` here because `alias` is a Lean keyword). -/
structure LibDef where
  aliasName : String
  file : String
deriving DecidableEq

def BUILT_IN_LIBRARIES : List LibDef :=
  [⟨"d3", "d3.v7.min.js"⟩,
   ⟨"three", "three.r128.min.js"⟩,
   ⟨"p5", "p5.v1.4.0.min.js"⟩,
   ⟨"anime", "anime.v3.2.1.min.js"⟩,
   ⟨"chartjs", "chart.umd.js"⟩,
   ⟨"matter", "matter.v0.18.0.min.js"⟩]

/-- main.js line 618:
`requestedLibs.map(alias => BUILT_IN_LIBRARIES.find(lib => lib.alias === alias)).filter(Boolean).map(libDef => ...libDef.file)`
— the resolved bundle file names, in request order, unknown aliases
dropped. -/
def resolveLibFiles (requested : List String) : List String :=
  ((requested.map
      (fun a => BUILT_IN_LIBRARIES.find? (fun l => l.aliasName == a))).filterMap
    id).map (fun l => l.file)

/-- An alias present in the trusted registry. -/
def isKnownAlias (a : String) : Bool :=
  (BUILT_IN_LIBRARIES.find? (fun l => l.aliasName == a)).isSome

theorem resolveLibFiles_cons (a : String) (t : List String) :
    resolveLibFiles (a :: t) =
      match BUILT_IN_LIBRARIES.find? (fun l => l.aliasName == a) with
      | some l => l.file :: resolveLibFiles t
      | none => resolveLibFiles t := by
  unfold resolveLibFiles
  cases h : BUILT_IN_LIBRARIES.find? (fun l => l.aliasName == a) <;>
    simp [h, List.filterMap_cons]

theorem resolveLibFiles_filter_known (req : List String) :
    resolveLibFiles req = resolveLibFiles (req.filter isKnownAlias) := by
  induction req with
  | nil => rfl
  | cons a t ih =>
    by_cases hk : isKnownAlias a = true
    · have : (a :: t).filter isKnownAlias = a :: t.filter isKnownAlias := by
        simp [List.filter_cons, hk]
      rw [this, resolveLibFiles_cons, resolveLibFiles_cons, ih]
    · have hnone : BUILT_IN_LIBRARIES.find? (fun l => l.aliasName == a) = none := by
        unfold isKnownAlias at hk
        exact Option.not_isSome_iff_eq_none.1 (by simpa using hk)
      have : (a :: t).filter isKnownAlias = t.filter isKnownAlias := by
        simp [List.filter_cons, hk]
      rw [this, resolveLibFiles_cons, hnone, ih]

theorem resolveLibFiles_length (req : List String) :
    (resolveLibFiles req).length = (req.filter isKnownAlias).length := by
  induction req with
  | nil => rfl
  | cons a t ih =>
    by_cases hk : isKnownAlias a = true
    · have hsome : (BUILT_IN_LIBRARIES.find? (fun l => l.aliasName == a)).isSome := by
        simpa [isKnownAlias] using hk
      obtain ⟨l, hl⟩ := Option.isSome_iff_exists.1 hsome
      rw [resolveLibFiles_cons, hl]
      simp [List.filter_cons, hk, ih]
    · have hnone : BUILT_IN_LIBRARIES.find? (fun l => l.aliasName == a) = none := by
        unfold isKnownAlias at hk
        exact Option.not_isSome_iff_eq_none.1 (by simpa using hk)
      rw [resolveLibFiles_cons, hnone]
      simp [List.filter_cons, hk, ih]

/-- C6: unknown dependency aliases are dropped by the resolver while every
known alias still resolves (resolution only depends on the known aliases,
one bundle per known alias, and removing an unknown alias from anywhere in
the request list changes nothing) — an unknown alias alone never fails the
sandbox construction. -/
theorem c6_theorem :
    (∀ req : List String,
      resolveLibFiles req = resolveLibFiles (req.filter isKnownAlias)) ∧
    (∀ req : List String,
      (resolveLibFiles req).length = (req.filter isKnownAlias).length) ∧
    (∀ (xs ys : List String) (a : String), isKnownAlias a = false →
      resolveLibFiles (xs ++ a :: ys) = resolveLibFiles (xs ++ ys)) := by
  refine ⟨resolveLibFiles_filter_known, resolveLibFiles_length, ?_⟩
  intro xs ys a ha
  rw [resolveLibFiles_filter_known (xs ++ a :: ys),
    resolveLibFiles_filter_known (xs ++ ys)]
  congr 1
  simp [List.filter_append, List.filter_cons, ha]

/-- Witness for C6 (Scenario B of the spec): requesting
`["d3", "nonexistent", "three"]` resolves exactly the two known bundles. -/
theorem c6_witness :
    resolveLibFiles ["d3", "nonexistent", "three"] =
      resolveLibFiles ["d3", "three"] ∧
    resolveLibFiles ["d3", "three"] = ["d3.v7.min.js", "three.r128.min.js"] :=
  ⟨c6_theorem.2.2 ["d3"] ["three"] "nonexistent" (by decide), by decide⟩

/-! ## Message Router: `resize` reports

State per context: the recorded maximum (`emberMaxHeights[frameId] || 0`)
and the height last applied to the display container (if any). -/

structure ResizeSt where
  currentMax : Int
  applied : Option Int
deriving DecidableEq

/-- The `ember-resize` case of the part_000 message listener (lines
1272-1288): ignore non-positive heights, add the 15px padding, cap at
`maxAllowedHeight = 600`, and only apply when above the recorded
maximum. -/
def emberResizeStep (st : ResizeSt) (height : Int) : ResizeSt :=
  if height ≤ 0 then st
  else
    let n0 := height + 15
    let n := if n0 > 600 then 600 else n0
    if n > st.currentMax then ⟨n, some n⟩ else st

/-- The `ember-resize` case of the main.js message listener (lines
694-702): same grow-only rule but with NO height cap. -/
def mainResizeStep (st : ResizeSt) (height : Int) : ResizeSt :=
  if height ≤ 0 then st
  else
    let n := height + 15
    if n > st.currentMax then ⟨n, some n⟩ else st

/-- A context's whole lifetime of resize reports, against the part_000
router, starting from the fresh state. -/
def emberResizeRun (reports : List Int) : ResizeSt :=
  reports.foldl emberResizeStep ⟨0, none⟩

/-- Case characterization of one resize step: either nothing changes (the
report was non-positive or did not beat the recorded maximum), or the
capped padded height is recorded and applied. -/
theorem emberResizeStep_char (st : ResizeSt) (height : Int) :
    (emberResizeStep st height = st ∧
      (height ≤ 0 ∨ min (height + 15) 600 ≤ st.currentMax)) ∨
    (∃ n : Int, n = min (height + 15) 600 ∧ st.currentMax < n ∧ 0 < height ∧
      emberResizeStep st height = ⟨n, some n⟩) := by
  by_cases h1 : height ≤ 0
  · left; exact ⟨by simp [emberResizeStep, h1], Or.inl h1⟩
  · by_cases h2 : height + 15 > 600
    · by_cases h3 : (600 : Int) > st.currentMax
      · right
        exact ⟨600, by omega, by omega, by omega,
          by simp [emberResizeStep, h1, h2, h3]⟩
      · left
        refine ⟨by simp [emberResizeStep, h1, h2, h3], Or.inr (by omega)⟩
    · by_cases h3 : height + 15 > st.currentMax
      · right
        exact ⟨height + 15, by omega, h3, by omega,
          by simp [emberResizeStep, h1, h2, h3]⟩
      · left
        refine ⟨by simp [emberResizeStep, h1, h2, h3], Or.inr (by omega)⟩

theorem emberResizeStep_inv {st : ResizeSt} (height : Int)
    (h : st.currentMax ≤ 600 ∧
      (∀ v, st.applied = some v → v = st.currentMax) ∧ 0 ≤ st.currentMax) :
    (emberResizeStep st height).currentMax ≤ 600 ∧
      (∀ v, (emberResizeStep st height).applied = some v →
        v = (emberResizeStep st height).currentMax) ∧
      0 ≤ (emberResizeStep st height).currentMax := by
  obtain ⟨h600, happ, hpos⟩ := h
  rcases emberResizeStep_char st height with ⟨heq, _⟩ | ⟨n, hn, hgt, hhp, heq⟩
  · rw [heq]; exact ⟨h600, happ, hpos⟩
  · rw [heq]
    refine ⟨?_, ?_, ?_⟩
    · show n ≤ 600
      omega
    · intro v hv
      show v = n
      have : n = v := by simpa using hv
      omega
    · show (0 : Int) ≤ n
      omega

theorem emberResizeRun_inv (reports : List Int) :
    (emberResizeRun reports).currentMax ≤ 600 ∧
      (∀ v, (emberResizeRun reports).applied = some v →
        v = (emberResizeRun reports).currentMax) ∧
      0 ≤ (emberResizeRun reports).currentMax := by
  have gen : ∀ (l : List Int) (st : ResizeSt),
      (st.currentMax ≤ 600 ∧
        (∀ v, st.applied = some v → v = st.currentMax) ∧ 0 ≤ st.currentMax) →
      ((l.foldl emberResizeStep st).currentMax ≤ 600 ∧
        (∀ v, (l.foldl emberResizeStep st).applied = some v →
          v = (l.foldl emberResizeStep st).currentMax) ∧
        0 ≤ (l.foldl emberResizeStep st).currentMax) := by
    intro l
    induction l with
    | nil => intro st h; simpa using h
    | cons x xs ih =>
      intro st h
      simpa [List.foldl_cons] using ih _ (emberResizeStep_inv x h)
  simpa [emberResizeRun] using gen reports ⟨0, none⟩ (by simp)

theorem emberResizeStep_mono (st : ResizeSt) (height : Int) :
    st.currentMax ≤ (emberResizeStep st height).currentMax := by
  rcases emberResizeStep_char st height with ⟨heq, _⟩ | ⟨n, hn, hgt, hhp, heq⟩
  · rw [heq]
  · rw [heq]; simpa using le_of_lt hgt

/-- C3, counterexample: the main.js router (also cited by the claim)
applies an uncapped height — a single report of 10000 drives the container
to 10015px, above the 600px ceiling the application defines for this
handler in the part_000 variant. -/
theorem c3_counterexample :
    mainResizeStep ⟨0, none⟩ 10000 = ⟨10015, some 10015⟩ ∧
      (600 : Int) < 10015 := by
  decide

/-- C3 (amended): for the part_000 router the applied height is
monotonically non-decreasing over a context's lifetime, a report at or
below the recorded maximum (or non-positive) leaves the state unchanged,
and the applied height never exceeds the 600px ceiling; the main.js
variant keeps the grow-only rule but has no ceiling. -/
theorem c3_theorem :
    (∀ (st : ResizeSt) (height : Int),
      st.currentMax ≤ (emberResizeStep st height).currentMax) ∧
    (∀ (st : ResizeSt) (height : Int),
      height ≤ 0 ∨ height + 15 ≤ st.currentMax → emberResizeStep st height = st) ∧
    (∀ reports : List Int,
      (emberResizeRun reports).currentMax ≤ 600 ∧
        ∀ v, (emberResizeRun reports).applied = some v → v ≤ 600) ∧
    (∀ (reports : List Int) (height : Int) (v w : Int),
      (emberResizeRun reports).applied = some v →
      (emberResizeStep (emberResizeRun reports) height).applied = some w →
      v ≤ w) := by
  refine ⟨emberResizeStep_mono, ?_, ?_, ?_⟩
  · intro st height h
    rcases emberResizeStep_char st height with ⟨heq, _⟩ | ⟨n, hn, hgt, hhp, heq⟩
    · exact heq
    · omega
  · intro reports
    obtain ⟨h600, happ, hpos⟩ := emberResizeRun_inv reports
    exact ⟨h600, fun v hv => by rw [happ v hv]; exact h600⟩
  · intro reports height v w hv hw
    obtain ⟨h600, happ, hpos⟩ := emberResizeRun_inv reports
    have h1 := happ v hv
    have h2 := (emberResizeStep_inv height ⟨h600, happ, hpos⟩).2.1 w hw
    have h3 := emberResizeStep_mono (emberResizeRun reports) height
    omega

/-- Witness for C3: a 100px report then a 50px report — the second is below
the recorded maximum and changes nothing; monotone and within the
ceiling. -/
theorem c3_witness :
    emberResizeStep ⟨115, some 115⟩ 50 = ⟨115, some 115⟩ ∧
    (emberResizeRun [100, 50]).currentMax ≤ 600 :=
  ⟨c3_theorem.2.1 ⟨115, some 115⟩ 50 (Or.inr (by decide)),
   (c3_theorem.2.2.1 [100, 50]).1⟩

/-! ## Message Router: terminal `success` / `error` reports

The per-context UI state: existence and display style of the loading
container and of the final (output) container, plus the error text shown
in the loading container, if any. -/

inductive Disp where
  | unset
  | hiddenD
  | blockD
  | flexD
deriving DecidableEq

structure CtxUI where
  loadingPresent : Bool
  loadingDisp : Disp
  loadingErr : Option String
  finalPresent : Bool
  finalDisp : Disp
deriving DecidableEq

inductive TermReport where
  | success
  | failure (msg : String)
deriving DecidableEq

/-- `message.split('\n')[0]`. -/
def firstLine (s : String) : String :=
  (s.toList.takeWhile (fun c => c ≠ Char.ofNat 10)).asString

/-- The `ember-error` / `ember-success` cases of the message listener
(main.js lines 677-693, part_000 lines 1255-1271), restricted to their UI
effect on the report's own context. -/
def routerTermStep (ui : CtxUI) : TermReport → CtxUI
  | .failure m =>
    if !ui.loadingPresent then ui
    else
      { ui with
        loadingErr := some (firstLine m),
        loadingDisp := .flexD,
        finalDisp := if ui.finalPresent then .hiddenD else ui.finalDisp }
  | .success =>
    { ui with
      loadingDisp := if ui.loadingPresent then .hiddenD else ui.loadingDisp,
      finalDisp := if ui.finalPresent then .blockD else ui.finalDisp }

/-- The state of a context's UI as first rendered: loading indicator shown,
final container present but hidden. -/
def uiStart : CtxUI := ⟨true, .unset, none, true, .hiddenD⟩

/-- C8, counterexample: after a handled `success` (terminal state reached:
loading hidden, output shown), a later `error` report for the same context
is NOT a no-op — it re-shows the loading container as an error panel and
hides the output container. -/
theorem c8_counterexample :
    routerTermStep (routerTermStep uiStart .success)
        (.failure "Ember Execution Error: boom") ≠
      routerTermStep uiStart .success := by
  decide

/-- C8 (amended): a repeated report of the same type (and text) after a
prior terminal report is a no-op on the context's UI state — each terminal
handler is idempotent — but a success and an error report do not commute:
the later of the two still rewrites the displayed state. -/
theorem c8_theorem :
    ∀ (ui : CtxUI) (r : TermReport),
      routerTermStep (routerTermStep ui r) r = routerTermStep ui r := by
  intro ui r
  cases r with
  | success =>
    by_cases h : ui.loadingPresent = true <;>
      by_cases h2 : ui.finalPresent = true <;>
        simp [routerTermStep, h, h2]
  | failure m =>
    by_cases h : ui.loadingPresent = true <;>
      by_cases h2 : ui.finalPresent = true <;>
        simp [routerTermStep, h, h2]

/-! ## Context identifiers (frameId)

`main.js` line 611: `` frameId = `ember-frame-${messageId}-${Date.now()}` ``;
part_000 line 1051 inserts `codeblock-` and line 676 `script-` before the
timestamp.  `Date.now()` has millisecond resolution, modelled as an
arbitrary `Nat` reading per creation. -/

def mkFrameId (messageId t : Nat) : String :=
  "ember-frame-" ++ decimalString messageId ++ "-" ++ decimalString t

def mkFrameIdCodeblock (messageId t : Nat) : String :=
  "ember-frame-" ++ decimalString messageId ++ "-codeblock-" ++ decimalString t

def mkFrameIdScript (messageId t : Nat) : String :=
  "ember-frame-" ++ decimalString messageId ++ "-script-" ++ decimalString t

/-- The identifiers of the contexts created for successive code blocks of
one message in one pass, given the `Date.now()` reading at each creation. -/
def framePassIds (messageId : Nat) (times : List Nat) : List String :=
  times.map (mkFrameIdCodeblock messageId)

def allDistinct : List String → Bool
  | [] => true
  | x :: xs => !xs.contains x && allDistinct xs

/-! ### Decimal representation facts -/

def ofDecimalDigits (l : List Nat) : Nat := l.foldl (fun a d => 10 * a + d) 0

theorem ofDecimalDigits_append_single (l : List Nat) (d : Nat) :
    ofDecimalDigits (l ++ [d]) = 10 * ofDecimalDigits l + d := by
  simp [ofDecimalDigits, List.foldl_append]

theorem ofDecimalDigits_aux (fuel : Nat) :
    ∀ n : Nat, n ≤ fuel → ofDecimalDigits (decimalDigitsAux fuel n) = n := by
  induction fuel with
  | zero =>
    intro n hn
    have : n = 0 := by omega
    subst this
    simp [decimalDigitsAux, ofDecimalDigits]
  | succ fuel ih =>
    intro n hn
    by_cases h : n < 10
    · simp [decimalDigitsAux, h, ofDecimalDigits]
    · have hle : n / 10 ≤ fuel := by omega
      simp only [decimalDigitsAux, if_neg h]
      rw [ofDecimalDigits_append_single, ih (n / 10) hle]
      omega

theorem ofDecimalDigits_decimalDigits (n : Nat) :
    ofDecimalDigits (decimalDigits n) = n :=
  ofDecimalDigits_aux n n (le_refl n)

theorem decimalDigits_lt_aux (fuel : Nat) :
    ∀ n : Nat, n ≤ fuel → ∀ d ∈ decimalDigitsAux fuel n, d < 10 := by
  induction fuel with
  | zero =>
    intro n hn d hd
    have : n = 0 := by omega
    subst this
    simp [decimalDigitsAux] at hd
    omega
  | succ fuel ih =>
    intro n hn d hd
    by_cases h : n < 10
    · simp [decimalDigitsAux, h] at hd
      omega
    · simp only [decimalDigitsAux, if_neg h, List.mem_append,
        List.mem_singleton] at hd
      rcases hd with hd | hd
      · exact ih (n / 10) (by omega) d hd
      · omega

theorem decimalDigits_lt (n : Nat) : ∀ d ∈ decimalDigits n, d < 10 :=
  decimalDigits_lt_aux n n (le_refl n)

theorem digitChar_injOn : ∀ d < 10, ∀ e < 10, digitChar d = digitChar e → d = e := by
  decide

theorem digitChar_ne_dash : ∀ d < 10, digitChar d ≠ '-' := by
  decide

theorem map_digitChar_inj :
    ∀ (l1 l2 : List Nat), (∀ d ∈ l1, d < 10) → (∀ d ∈ l2, d < 10) →
    l1.map digitChar = l2.map digitChar → l1 = l2 := by
  intro l1
  induction l1 with
  | nil => intro l2 _ _ h; cases l2 <;> simp_all
  | cons a l1 ih =>
    intro l2 h1 h2 h
    cases l2 with
    | nil => simp at h
    | cons b l2 =>
      simp only [List.map_cons, List.cons.injEq] at h
      have ha : a = b :=
        digitChar_injOn a (h1 a (by simp)) b (h2 b (by simp)) h.1
      have := ih l2 (fun d hd => h1 d (by simp [hd]))
        (fun d hd => h2 d (by simp [hd])) h.2
      simp [ha, this]

theorem decimalString_inj {m n : Nat} (h : decimalString m = decimalString n) :
    m = n := by
  unfold decimalString at h
  have h2 : (decimalDigits m).map digitChar = (decimalDigits n).map digitChar :=
    List.asString_inj.1 h
  have h3 : decimalDigits m = decimalDigits n :=
    map_digitChar_inj _ _ (decimalDigits_lt m) (decimalDigits_lt n) h2
  calc m = ofDecimalDigits (decimalDigits m) := (ofDecimalDigits_decimalDigits m).symm
    _ = ofDecimalDigits (decimalDigits n) := by rw [h3]
    _ = n := ofDecimalDigits_decimalDigits n

theorem dash_not_mem_decimalString (n : Nat) : '-' ∉ (decimalString n).toList := by
  unfold decimalString
  rw [List.toList_asString]
  intro hmem
  obtain ⟨d, hd, hdc⟩ := List.mem_map.1 hmem
  exact digitChar_ne_dash d (decimalDigits_lt n d hd) hdc

/-- Lists agreeing on each side of a separator character absent from both
left parts are equal componentwise. -/
theorem sep_split :
    ∀ (a b r s : List Char), '-' ∉ a → '-' ∉ b →
    a ++ '-' :: r = b ++ '-' :: s → a = b ∧ r = s := by
  intro a
  induction a with
  | nil =>
    intro b r s _ hb h
    cases b with
    | nil => simpa using h
    | cons c b =>
      simp only [List.nil_append, List.cons_append, List.cons.injEq] at h
      exact absurd (h.1 ▸ List.mem_cons_self c b) (by simp_all)
  | cons c a ih =>
    intro b r s ha hb h
    cases b with
    | nil =>
      simp only [List.cons_append, List.nil_append, List.cons.injEq] at h
      exact absurd (h.1 ▸ List.mem_cons_self c a) (by simp_all)
    | cons d b =>
      simp only [List.cons_append, List.cons.injEq] at h
      obtain ⟨rfl, h2⟩ := h
      have := ih b r s (fun hm => ha (List.mem_cons_of_mem _ hm))
        (fun hm => hb (List.mem_cons_of_mem _ hm)) h2
      simp [this.1, this.2]

/-- C7, counterexample: two Execution Contexts created for different code
blocks of the same message within the same millisecond (same `Date.now()`
reading) receive the SAME frameId — context identifiers are not unique. -/
theorem c7_counterexample :
    (framePassIds 3 [1000, 1000]).length = 2 ∧
    allDistinct (framePassIds 3 [1000, 1000]) = false := by
  decide

/-- C7 (amended): a frameId determines the message id and the millisecond
timestamp it was built from — contexts created for distinct messages or at
distinct `Date.now()` readings get distinct identifiers; only contexts of
the same message created within the same millisecond collide. -/
theorem c7_theorem :
    ∀ m1 t1 m2 t2 : Nat,
      mkFrameIdCodeblock m1 t1 = mkFrameIdCodeblock m2 t2 →
      m1 = m2 ∧ t1 = t2 := by
  intro m1 t1 m2 t2 h
  have hsep : ("-codeblock-" : String).data = '-' :: ("codeblock-" : String).data :=
    rfl
  have hdata : ("ember-frame-" : String).data ++ ((decimalString m1).data ++
      ('-' :: (("codeblock-" : String).data ++ (decimalString t1).data))) =
      ("ember-frame-" : String).data ++ ((decimalString m2).data ++
      ('-' :: (("codeblock-" : String).data ++ (decimalString t2).data))) := by
    have h0 := congrArg String.data h
    simp only [mkFrameIdCodeblock, String.data_append, List.append_assoc,
      hsep, List.cons_append] at h0
    simpa [List.append_assoc] using h0
  have h1 := List.append_cancel_left hdata
  have h2 := sep_split (decimalString m1).data (decimalString m2).data _ _
    (dash_not_mem_decimalString m1) (dash_not_mem_decimalString m2) h1
  have hm : m1 = m2 := decimalString_inj (by ext1; exact h2.1)
  have h3 := List.append_cancel_left h2.2
  have ht : t1 = t2 := decimalString_inj (by ext1; exact h3)
  exact ⟨hm, ht⟩

/-- Witness for C7: distinct timestamps yield the identities back. -/
theorem c7_witness : (3 : Nat) = 3 ∧ (5 : Nat) = 5 :=
  c7_theorem 3 5 3 5 rfl

/-! ## `escapeRegExp` (main.js lines 505-507)

`string.replace(/[.*+?^${}()|[\]\\]/g, '\\$&')` prepends a backslash to
every regex metacharacter.  The Repair Loop builds
`new RegExp(... + escapeRegExp(originalCode) + ...)` from it, relying on
the escaped pattern denoting exactly the literal text. -/

/-- The character class `[.*+?^${}()|[\]\\]` of `escapeRegExp`. -/
def regexMetas : List Char :=
  ['.', '*', '+', '?', '^', '$', lbrace, rbrace, '(', ')', '|', '[', ']', bslash]

def escapeRegExp (s : String) : String :=
  (s.toList.flatMap
    (fun c => if regexMetas.contains c then [bslash, c] else [c])).asString

/-- Parse a regex pattern string that denotes a plain literal sequence:
escaped metacharacters are identity escapes, an unescaped metacharacter
(or a dangling/class escape) disqualifies the pattern.  Returns the
character sequence the pattern spells. -/
def parseLitPattern : List Char → Option (List Char)
  | [] => some []
  | [c] =>
    if c = bslash then none
    else if regexMetas.contains c then none
    else some [c]
  | c :: d :: rest =>
    if c = bslash then
      if regexMetas.contains d then (parseLitPattern rest).map (d :: ·)
      else none
    else if regexMetas.contains c then none
    else (parseLitPattern (d :: rest)).map (c :: ·)

/-- `r` has a match in `t` starting exactly at index `i`. -/
def reOccursAt (r : RE) (t : List Char) (i : Nat) : Prop :=
  ∃ pre m post : List Char,
    pre.length = i ∧ t = pre ++ m ++ post ∧ reMatchL r m = true

theorem reMatchL_cons (r : RE) (c : Char) (m : List Char) :
    reMatchL r (c :: m) = reMatchL (deriv r c) m := rfl

theorem reMatchL_emp : ∀ m : List Char, reMatchL .emp m = false := by
  intro m
  induction m with
  | nil => rfl
  | cons c cs ih => rw [reMatchL_cons]; exact ih

theorem catS_eps (r : RE) : catS .eps r = r := by cases r <;> rfl

theorem catS_empL (r : RE) : catS .emp r = .emp := by cases r <;> rfl

theorem deriv_litL_cons (c : Char) (cs : List Char) (ch : Char) :
    deriv (litL (c :: cs)) ch = if c = ch then litL cs else .emp := by
  show deriv (.cat (litC c) (litL cs)) ch = _
  simp only [deriv, litC, nullable, CC.test, List.contains_cons,
    List.contains_nil, Bool.or_false, Bool.false_eq_true, if_false]
  by_cases h : c = ch
  · subst h
    simp [catS_eps]
  · have hb : (ch == c) = false := by
      simp only [beq_eq_false_iff_ne, ne_eq]
      exact fun hh => h hh.symm
    simp [hb, h, catS_empL]

theorem nullable_litL : ∀ l : List Char, nullable (litL l) = true ↔ l = [] := by
  intro l
  cases l with
  | nil => simp [litL, nullable]
  | cons c cs => simp [litL, nullable, litC]

theorem reMatchL_litL : ∀ (l m : List Char), reMatchL (litL l) m = true ↔ m = l := by
  intro l m
  induction m generalizing l with
  | nil =>
    show nullable (litL l) = true ↔ [] = l
    rw [nullable_litL]
    exact ⟨fun h => h.symm, fun h => h.symm⟩
  | cons ch m ih =>
    cases l with
    | nil =>
      rw [reMatchL_cons, show deriv (litL []) ch = .emp from rfl, reMatchL_emp]
      simp
    | cons c cs =>
      rw [reMatchL_cons, deriv_litL_cons]
      by_cases h : c = ch
      · subst h
        rw [if_pos rfl, ih]
        simp
      · rw [if_neg h, reMatchL_emp]
        constructor
        · intro hf; simp at hf
        · intro hc
          injection hc with h1 h2
          exact absurd h1.symm h

theorem escFn_ne_nil (c : Char) :
    (if regexMetas.contains c then [bslash, c] else [c]) ≠ ([] : List Char) := by
  split_ifs <;> simp

theorem flatMap_esc_nil {l : List Char}
    (h : l.flatMap (fun c => if regexMetas.contains c then [bslash, c] else [c]) = []) :
    l = [] := by
  cases l with
  | nil => rfl
  | cons c cs =>
    rw [List.flatMap_cons] at h
    exact absurd (List.append_eq_nil.1 h).1 (escFn_ne_nil c)

theorem parseLitPattern_escape :
    ∀ l : List Char,
      parseLitPattern (l.flatMap
        (fun c => if regexMetas.contains c then [bslash, c] else [c])) = some l := by
  intro l
  induction l with
  | nil => rfl
  | cons c cs ih =>
    rw [List.flatMap_cons]
    by_cases h : regexMetas.contains c = true
    · rw [if_pos h]
      show parseLitPattern (bslash :: c ::
        cs.flatMap (fun c => if regexMetas.contains c then [bslash, c] else [c])) =
        some (c :: cs)
      rw [show ∀ rest, parseLitPattern (bslash :: c :: rest) =
          if regexMetas.contains c then (parseLitPattern rest).map (c :: ·)
          else none from fun rest => by rw [parseLitPattern]; rw [if_pos rfl]]
      rw [if_pos h, ih]
      rfl
    · have hnb : c ≠ bslash := by
        intro hc
        subst hc
        simp [regexMetas] at h
      rw [if_neg h]
      cases hfm : cs.flatMap
          (fun c => if regexMetas.contains c then [bslash, c] else [c]) with
      | nil =>
        have hcs : cs = [] := flatMap_esc_nil hfm
        subst hcs
        show parseLitPattern [c] = some [c]
        rw [parseLitPattern]
        rw [if_neg hnb, if_neg h]
      | cons d rest =>
        rw [hfm] at ih
        show parseLitPattern (c :: d :: rest) = some (c :: cs)
        rw [parseLitPattern]
        rw [if_neg hnb, if_neg h, ih]
        rfl

theorem headMatch_iff : ∀ (p t : List Char), headMatch p t = true ↔ t.take p.length = p := by
  intro p
  induction p with
  | nil => intro t; simp [headMatch]
  | cons c ps ih =>
    intro t
    cases t with
    | nil => simp [headMatch]
    | cons d ts =>
      simp only [headMatch, Bool.and_eq_true, decide_eq_true_eq, List.length_cons,
        List.take_succ_cons, List.cons.injEq, ih ts]
      constructor
      · rintro ⟨rfl, h⟩; exact ⟨rfl, h⟩
      · rintro ⟨rfl, h⟩; exact ⟨rfl, h⟩

theorem occursAt_iff_headMatch (t : List Char) (i : Nat) (p : List Char) :
    occursAt t i p = true ↔ headMatch p (t.drop i) = true := by
  rw [occursAt, headMatch_iff, decide_eq_true_eq]

theorem containsSub_iff :
    ∀ (t p : List Char), containsSub t p = true ↔ ∃ i, occursAt t i p = true := by
  intro t p
  induction t with
  | nil =>
    unfold containsSub
    simp only [occursAt_iff_headMatch]
    constructor
    · intro h; exact ⟨0, by simpa using h⟩
    · rintro ⟨i, h⟩; simpa using h
  | cons c ts ih =>
    unfold containsSub
    simp only [Bool.or_eq_true, ih]
    constructor
    · rintro (h | ⟨i, h⟩)
      · exact ⟨0, by rw [occursAt_iff_headMatch]; simpa using h⟩
      · refine ⟨i + 1, ?_⟩
        rw [occursAt_iff_headMatch] at h ⊢
        simpa using h
    · rintro ⟨i, h⟩
      cases i with
      | zero =>
        left
        rw [occursAt_iff_headMatch] at h
        simpa using h
      | succ i =>
        right
        refine ⟨i, ?_⟩
        rw [occursAt_iff_headMatch] at h ⊢
        simpa using h

/-- C10: `escapeRegExp(s)` is a pattern spelling exactly the literal
characters of `s` (every metacharacter neutralized by an identity escape),
and a literal pattern matches a text at a position exactly when the literal
text occurs there — so a RegExp built from `escapeRegExp(s)` finds
precisely the literal occurrences of `s`. -/
theorem c10_theorem :
    ∀ s : String,
      parseLitPattern (escapeRegExp s).toList = some s.toList ∧
      ∀ (t : List Char) (i : Nat), i ≤ t.length →
        (reOccursAt (litL s.toList) t i ↔ occursAt t i s.toList = true) := by
  intro s
  constructor
  · unfold escapeRegExp
    rw [List.toList_asString]
    exact parseLitPattern_escape s.toList
  · intro t i hi
    constructor
    · rintro ⟨pre, m, post, hlen, rfl, hm⟩
      have hm' : m = s.toList := (reMatchL_litL _ _).1 hm
      subst hm'
      rw [occursAt, decide_eq_true_eq, ← hlen, List.append_assoc,
        List.drop_left, List.take_left]
    · intro h
      rw [occursAt, decide_eq_true_eq] at h
      refine ⟨t.take i, s.toList, (t.drop i).drop s.toList.length,
        by simpa using hi, ?_, (reMatchL_litL _ _).2 rfl⟩
      conv_lhs => rw [← List.take_append_drop i t]
      rw [List.append_assoc]
      congr 1
      conv_lhs => rw [← List.take_append_drop s.toList.length (t.drop i)]
      rw [h]

/-- Witness for C10 at a concrete pattern and text: `a.b` escapes to
`a\.b`, which occurs in `xa.bz` at index 1 and only there. -/
theorem c10_witness :
    (1 : Nat) ≤ "xa.bz".toList.length ∧
    (reOccursAt (litL "a.b".toList) "xa.bz".toList 1 ↔
      occursAt "xa.bz".toList 1 "a.b".toList = true) :=
  ⟨by decide, ( c10_theorem "a.b").2 "xa.bz".toList 1 (by decide)⟩

/-! ## Repair Loop (`attemptSelfHeal`, main.js lines 438-503)

The pure decision core: parsing the repair response, locating the original
block in the persisted message source, and producing the updated source.
Network, DOM reads and re-rendering are outside the embedding; `none`
covers every path that aborts without mutating `msg.mes` (including every
thrown error path — throws happen before the assignment to `msg.mes`). -/

/-- `correctedText.match(/```javascript\s*([\s\S]*?)\s*```/)`, group 1
trimmed on success, else the whole response trimmed (main.js 451-452):
the text between the first ` ```javascript ` marker and the next ` ``` `,
trimmed (the lazy group plus surrounding `\s*` amount to trimming). -/
def parseHealedCode (responseText : String) : String :=
  match splitAtFirst responseText.toList "```javascript".toList with
  | some (_, rest) =>
    match firstIndexOf rest "```".toList with
    | some i => (jsTrimL (rest.take i)).asString
    | none => jsTrim responseText
  | none => jsTrim responseText

/-- `originalCode.match` with the pattern `^---\s*([\s\S]*?)\s*---` — the
whole match (`match[0]`): from the opening `---` through the first
following `---`. -/
def frontmatterMatch0 (code : List Char) : Option (List Char) :=
  if headMatch "---".toList code then
    (firstIndexOf (code.drop 3) "---".toList).map (fun i => code.take (3 + i + 3))
  else none

/-- The replacement markdown (main.js line 474):
`` `${fm ? fm[0].trim() + '\n' : '---\n---\n'}\n```javascript\n${correctedCode}\n``` `` -/
def correctedMarkdownOf (originalCode correctedCode : String) : String :=
  (match frontmatterMatch0 originalCode.toList with
   | some fm => (jsTrimL fm).asString ++ "\n"
   | none => "---\n---\n") ++
  "\n```javascript\n" ++ correctedCode ++ "\n```"

/-- Length of the leading whitespace run. -/
def wsRunLen (t : List Char) : Nat := (t.takeWhile isJsWhite).length

/-- Greedy-with-backtracking `\s*`: consume `k` whitespace characters for
the largest `k` that lets the continuation succeed; the result is the
total number of characters consumed. -/
def tryWsDescend : Nat → List Char → (List Char → Option Nat) → Option Nat
  | 0, t, cont => cont t
  | k + 1, t, cont =>
    match cont (t.drop (k + 1)) with
    | some r => some (k + 1 + r)
    | none => tryWsDescend k t cont

/-- Match `` ```javascript\s*ORIG\s*``` `` at the head of `t` (the code
builds this pattern with `escapeRegExp(originalCode)`, so `ORIG` is the
literal original code — see C10).  Returns the match length. -/
def matchBlockLen (orig t : List Char) : Option Nat :=
  if headMatch "```javascript".toList t then
    let t1 := t.drop 13
    match tryWsDescend (wsRunLen t1) t1 (fun t2 =>
      if headMatch orig t2 then
        let t3 := t2.drop orig.length
        match tryWsDescend (wsRunLen t3) t3 (fun t4 =>
          if headMatch "```".toList t4 then some 3 else none) with
        | some r => some (orig.length + r)
        | none => none
      else none) with
    | some r => some (13 + r)
    | none => none
  else none

/-- Leftmost match of the block pattern in `mes`
(`msg.mes.match(new RegExp(...escapeRegExp(originalCode)...))`, main.js
line 475); returns the matched text (`match[1]` is the whole pattern). -/
def findBlock : Nat → (orig t : List Char) → Option (List Char)
  | 0, _, _ => none
  | fuel + 1, orig, t =>
    match matchBlockLen orig t with
    | some len => some (t.take len)
    | none =>
      match t with
      | [] => none
      | _ :: ts => findBlock fuel orig ts

/-- Match `---\s*[\s\S]*?\s*---\s*` at the head of `t`, followed by
`block`; lazy: the earliest viable closing `---` wins.  Returns the length
up to (not including) `block`. -/
def fmScan : Nat → Nat → List Char → List Char → Option Nat
  | 0, _, _, _ => none
  | fuel + 1, pos, t, block =>
    if t.length < pos + 3 then none
    else if headMatch "---".toList (t.drop pos) then
      match tryWsDescend (wsRunLen (t.drop (pos + 3))) (t.drop (pos + 3))
        (fun t3 => if headMatch block t3 then some 0 else none) with
      | some r => some (pos + 3 + r)
      | none => fmScan fuel (pos + 1) t block
    else fmScan fuel (pos + 1) t block

/-- Leftmost match of `(---\s*[\s\S]*?\s*---\s*)?BLOCK` (main.js line 479,
`BLOCK` again escaped to a literal): the whole matched text
(`fullOriginalMarkdown`). -/
def findFmBlock : Nat → (t block : List Char) → Option (List Char)
  | 0, _, _ => none
  | fuel + 1, t, block =>
    if headMatch "---".toList t then
      match fmScan (t.length + 1) 3 t block with
      | some n => some (t.take (n + block.length))
      | none =>
        if headMatch block t then some (t.take block.length)
        else
          match t with
          | [] => none
          | _ :: ts => findFmBlock fuel ts block
    else if headMatch block t then some (t.take block.length)
    else
      match t with
      | [] => none
      | _ :: ts => findFmBlock fuel ts block

/-- `msg.mes.replace(fullOriginalMarkdown, correctedMarkdown)` — first
occurrence, literal string pattern (the `$`-substitution semantics of the
replacement argument are not modelled; no claim depends on them). -/
def replaceFirstSub (t p r : List Char) : List Char :=
  match firstIndexOf t p with
  | some i => t.take i ++ r ++ t.drop (i + p.length)
  | none => t

/-- The `msg.mes` update of `attemptSelfHeal` (main.js lines 454-497):
`some newMes` exactly when a fix is installed (after which the message is
re-rendered); `none` when the heal aborts leaving the message source
untouched — corrected code empty or trim-identical to the original, or a
located span missing (those paths throw before any mutation). -/
def selfHealUpdate (originalCode correctedCode mes : String) : Option String :=
  if correctedCode ≠ "" ∧ jsTrim correctedCode ≠ jsTrim originalCode then
    match findBlock (mes.toList.length + 1) originalCode.toList mes.toList with
    | none => none
    | some block =>
      match findFmBlock (mes.toList.length + 1) mes.toList block with
      | none => none
      | some full =>
        some ((replaceFirstSub mes.toList full
          (correctedMarkdownOf originalCode correctedCode).toList).asString)
  else none

/-- C4: when the code parsed from the repair response is empty or equal to
the original after trimming, the persisted message source is left
completely unchanged and no re-render happens; the source is mutated only
when the parsed fix is non-empty and differs from the original under
trimmed comparison. -/
theorem c4_theorem :
    (∀ responseText originalCode mes : String,
      (parseHealedCode responseText = "" ∨
        jsTrim (parseHealedCode responseText) = jsTrim originalCode) →
      selfHealUpdate originalCode (parseHealedCode responseText) mes = none) ∧
    (∀ originalCode correctedCode mes newMes : String,
      selfHealUpdate originalCode correctedCode mes = some newMes →
      correctedCode ≠ "" ∧ jsTrim correctedCode ≠ jsTrim originalCode) := by
  constructor
  · intro responseText originalCode mes h
    unfold selfHealUpdate
    rw [if_neg]
    rintro ⟨h1, h2⟩
    rcases h with h | h
    · exact h1 h
    · exact h2 h
  · intro originalCode correctedCode mes newMes h
    by_cases hc : correctedCode ≠ "" ∧ jsTrim correctedCode ≠ jsTrim originalCode
    · exact hc
    · rw [selfHealUpdate, if_neg hc] at h
      simp at h

/-- Witness for C4 (Scenario C of the spec): a repair response whose
fenced code block is byte-identical to the original leaves the message
source unchanged. -/
theorem c4_witness :
    parseHealedCode "```javascript\nroot.x\n```" = "root.x" ∧
    selfHealUpdate "root.x"
      (parseHealedCode "```javascript\nroot.x\n```") "some message" = none :=
  ⟨by decide,
   c4_theorem.1 "```javascript\nroot.x\n```" "root.x" "some message"
     (Or.inr (by decide))⟩

/-! ## Sandbox Builder (`createSandboxedFrame`, main.js lines 510-570)

The generated iframe document.  The user code is spliced in as
`JSON.stringify(code)` (`safeCodeString`); the libraries as
`JSON.stringify(libraryCodes)`; the frameId verbatim.  In the string
literals below `\x7b`/`\x7d` denote the braces and `\x27` the apostrophes
of the source template. -/

def hexDigit (n : Nat) : Char :=
  if n < 10 then Char.ofNat (48 + n) else Char.ofNat (87 + n)

/-- `JSON.stringify` escaping of one character: quote, backslash, the
named control escapes, `\u00XX` for other control characters, everything
else verbatim. -/
def jsonEscapeChar (c : Char) : List Char :=
  if c = dquote then [bslash, dquote]
  else if c = bslash then [bslash, bslash]
  else if c = Char.ofNat 8 then [bslash, 'b']
  else if c = Char.ofNat 12 then [bslash, 'f']
  else if c = Char.ofNat 10 then [bslash, 'n']
  else if c = Char.ofNat 13 then [bslash, 'r']
  else if c = Char.ofNat 9 then [bslash, 't']
  else if c.toNat < 32 then
    [bslash, 'u', '0', '0', hexDigit (c.toNat / 16), hexDigit (c.toNat % 16)]
  else [c]

/-- `JSON.stringify` of a string. -/
def jsonEncodeString (s : String) : String :=
  (dquote :: (s.toList.flatMap jsonEscapeChar ++ [dquote])).asString

/-- `JSON.stringify` of an array of strings. -/
def jsonArrayOfStrings (l : List String) : String :=
  "[" ++ (joinSep [','] ((l.map jsonEncodeString).map String.toList)).asString ++ "]"

/-- Template text from `<html>` up to the `frameId` splice point. -/
def sandboxPartA : String := String.join
  ["<html><head><style>body\x7bfont-family:var(--mainFontFamily,sans-serif);color:var(--text-color,#000);background-color:transparent;margin:0;padding:5px\x7d#root\x7bwidth:100%;height:100%;box-sizing:border-box\x7d</style></head><body><div id=\"root\"></div><script>(()=>\x7b\n",
   "        const e=\""]

/-- Template text between the `frameId` splice and the
`JSON.stringify(libraryCodes)` splice. -/
def sandboxPartB : String := String.join
  ["\";\n",
   "        const t=o=>window.parent.postMessage(\x7btype:\"ember-error\",frameId:e,message:o\x7d,\"*\");\n",
   "        const n=()=>window.parent.postMessage(\x7btype:\"ember-success\",frameId:e\x7d,\"*\");\n",
   "\n",
   "        window.ember = \x7b\n",
   "            inject: function(options) \x7b\n",
   "                if (!options || typeof options.content !== \x27string\x27) \x7b\n",
   "                    t(\"Ember Internal Error: ember.inject called with invalid options. \x27content\x27 (string) is required.\");\n",
   "                    return;\n",
   "                \x7d\n",
   "                const injectionData = \x7b\n",
   "                    id: typeof options.id === \x27string\x27 ? options.id : \x27ember_js_block\x27,\n",
   "                    depth: typeof options.depth === \x27number\x27 ? options.depth : 0,\n",
   "                    content: options.content,\n",
   "                    ephemeral: typeof options.ephemeral === \x27boolean\x27 ? options.ephemeral : false\n",
   "                \x7d;\n",
   "                window.parent.postMessage(\x7b type: \"ember-inject-js\", frameId: e, injection: injectionData \x7d, \"*\");\n",
   "            \x7d\n",
   "        \x7d;\n",
   "\n",
   "        let o=!1;\n",
   "        const s=()=>\x7bif(o)return;o=!0,clearTimeout(d),i&&i.disconnect(), setTimeout(n, 50);\x7d;\n",
   "        const d=setTimeout(()=>\x7bo||t(\"Ember Warning: Script produced no visual output within 7 seconds.\")\x7d,7000);\n",
   "        const i=new MutationObserver(()=>\x7b if(document.getElementById(\"root\")?.hasChildNodes())\x7b s(); \x7d \x7d);\n",
   "        const rootElementForObserver = document.getElementById(\"root\");\n",
   "        if(rootElementForObserver) \x7b\n",
   "             i.observe(rootElementForObserver,\x7bchildList:!0,subtree:!0\x7d);\n",
   "             if (rootElementForObserver.hasChildNodes()) \x7b s(); \x7d\n",
   "        \x7d else \x7b\n",
   "            t(\"Ember Internal Error: #root element not found in iframe for MutationObserver.\");\n",
   "        \x7d\n",
   "\n",
   "        new ResizeObserver(()=>\x7b\n",
   "            const o=Math.ceil(document.documentElement.scrollHeight);\n",
   "            if(o>0) window.parent.postMessage(\x7btype:\"ember-resize\",frameId:e,height:o\x7d,\"*\");\n",
   "        \x7d).observe(document.documentElement);\n",
   "\n",
   "        try\x7b\n",
   "            const libraryScripts = "]

/-- Template text between the libraries splice and the `safeCodeString`
splice. -/
def sandboxPartC : String := String.join
  [";\n",
   "            for(const scriptContent of libraryScripts)\x7b\n",
   "                const scriptEl = document.createElement(\"script\");\n",
   "                scriptEl.textContent = scriptContent;\n",
   "                document.head.appendChild(scriptEl);\n",
   "            \x7d\n",
   "            const userCodeToRun = "]

/-- Template text after the `safeCodeString` splice, through the closing
tags (`<\/script>` in the source produces the literal `</script>`). -/
def sandboxPartD : String := String.join
  [";\n",
   "            const rootElement = document.getElementById(\"root\");\n",
   "            if (!rootElement) \x7b t(\"Ember Internal Error: #root element not found in iframe.\"); return; \x7d\n",
   "            new Function(\x27root\x27, userCodeToRun)(rootElement);\n",
   "             setTimeout(s, 1000);\n",
   "        \x7dcatch(err)\x7b\n",
   "            t(\"Ember Execution Error: \"+(err.stack||err.message));\n",
   "        \x7d\x7d)();</script></body></html>"]

/-- The complete `iframeContent` document string. -/
def createSandboxedFrameContent (code : String) (libraryCodes : List String)
    (frameId : String) : String :=
  sandboxPartA ++ frameId ++ sandboxPartB ++ jsonArrayOfStrings libraryCodes ++
    sandboxPartC ++ jsonEncodeString code ++ sandboxPartD

/-- The document up to and including the embedded user-code literal. -/
def sandboxDocPre (libraryCodes : List String) (frameId : String) : String :=
  sandboxPartA ++ frameId ++ sandboxPartB ++ jsonArrayOfStrings libraryCodes ++
    sandboxPartC

/-- The user source escapes its slot when the document up to and including
the embedded code literal contains a `</script>` tag: the HTML parser then
terminates the bootstrap script element before its intended closing tag,
and the rest of the embedded text becomes live markup of the sandbox
document. -/
def escapesSlot (code : String) (libraryCodes : List String)
    (frameId : String) : Bool :=
  containsSub (sandboxDocPre libraryCodes frameId ++ jsonEncodeString code).toList
    "</script>".toList

/-! ### Occurrence lemmas for the slot-escape analysis -/

theorem occursAt_getElem? {t p : List Char} {i : Nat} (h : occursAt t i p = true) :
    ∀ k, k < p.length → t[i + k]? = p[k]? := by
  rw [occursAt, decide_eq_true_eq] at h
  intro k hk
  conv_rhs => rw [← h]
  rw [List.getElem?_take_of_lt hk, List.getElem?_drop]

theorem occursAt_length {t p : List Char} {i : Nat} (hp : 0 < p.length)
    (h : occursAt t i p = true) :
    i + p.length ≤ t.length := by
  rw [occursAt, decide_eq_true_eq] at h
  have h2 := congrArg List.length h
  rw [List.length_take, List.length_drop, Nat.min_def] at h2
  split_ifs at h2 <;> omega

theorem occursAt_append_left {xs ys p : List Char} {i : Nat}
    (hb : i + p.length ≤ xs.length) (h : occursAt (xs ++ ys) i p = true) :
    occursAt xs i p = true := by
  rw [occursAt, decide_eq_true_eq] at h ⊢
  rw [List.drop_append_eq_append_drop, List.take_append_eq_append_take] at h
  have h1 : p.length - (xs.drop i).length = 0 := by
    rw [List.length_drop]; omega
  rw [h1, List.take_zero, List.append_nil] at h
  exact h

theorem occursAt_append_right {xs ys p : List Char} {i : Nat}
    (hb : xs.length ≤ i) (h : occursAt (xs ++ ys) i p = true) :
    occursAt ys (i - xs.length) p = true := by
  rw [occursAt, decide_eq_true_eq] at h ⊢
  rw [List.drop_append_eq_append_drop, List.drop_eq_nil_of_le hb,
    List.nil_append] at h
  exact h

theorem mem_of_getElem?_eq {α : Type} {l : List α} {n : Nat} {a : α}
    (h : l[n]? = some a) : a ∈ l :=
  List.get?_mem (by rw [List.get?_eq_getElem?]; exact h)

/-- Characters an escape sequence can introduce (beyond the escaped
character itself). -/
def jsonEscapeAux : List Char :=
  [bslash, dquote, 'b', 'f', 'n', 'r', 't', 'u', '0'] ++
    (List.range 16).map hexDigit

theorem hexDigit_mem_aux {k : Nat} (hk : k < 16) : hexDigit k ∈ jsonEscapeAux := by
  unfold jsonEscapeAux
  rw [List.mem_append]
  right
  exact List.mem_map.2 ⟨k, List.mem_range.2 hk, rfl⟩

theorem mem_jsonEscapeChar {c d : Char} (h : c ∈ jsonEscapeChar d) :
    c = d ∨ c ∈ jsonEscapeAux := by
  unfold jsonEscapeChar at h
  split_ifs at h with h1 h2 h3 h4 h5 h6 h7 h8
  · right
    simp only [List.mem_cons, List.not_mem_nil, or_false] at h
    rcases h with rfl | rfl <;> decide
  · right
    simp only [List.mem_cons, List.not_mem_nil, or_false] at h
    rcases h with rfl | rfl <;> decide
  · right
    simp only [List.mem_cons, List.not_mem_nil, or_false] at h
    rcases h with rfl | rfl <;> decide
  · right
    simp only [List.mem_cons, List.not_mem_nil, or_false] at h
    rcases h with rfl | rfl <;> decide
  · right
    simp only [List.mem_cons, List.not_mem_nil, or_false] at h
    rcases h with rfl | rfl <;> decide
  · right
    simp only [List.mem_cons, List.not_mem_nil, or_false] at h
    rcases h with rfl | rfl <;> decide
  · right
    simp only [List.mem_cons, List.not_mem_nil, or_false] at h
    rcases h with rfl | rfl <;> decide
  · right
    simp only [List.mem_cons, List.not_mem_nil, or_false] at h
    rcases h with rfl | rfl | rfl | rfl | rfl | rfl
    · decide
    · decide
    · decide
    · decide
    · exact hexDigit_mem_aux (by omega)
    · exact hexDigit_mem_aux (Nat.mod_lt _ (by omega))
  · left
    simpa using h

theorem mem_jsonEncode {c : Char} {code : String}
    (h : c ∈ (jsonEncodeString code).toList) :
    c = dquote ∨ c ∈ code.toList ∨ c ∈ jsonEscapeAux := by
  unfold jsonEncodeString at h
  rw [List.toList_asString] at h
  rcases List.mem_cons.1 h with rfl | h2
  · left; rfl
  · rcases List.mem_append.1 h2 with h3 | h3
    · obtain ⟨d, hd, hc⟩ := List.mem_flatMap.1 h3
      rcases mem_jsonEscapeChar hc with rfl | hx
      · right; left; exact hd
      · right; right; exact hx
    · left
      simpa using h3

/-- The fixed document prefix (with no libraries and a canonical frameId)
contains no `</script>` of its own. -/
theorem sandboxPre_clean :
    containsSub (sandboxDocPre [] "ember-frame-0-0").toList
      "</script>".toList = false := by
  decide

/-- C1, counterexample: `JSON.stringify` leaves `<` and `/` verbatim, so a
user source containing `</script>` terminates the bootstrap script element
of the sandbox document early — the source escapes its slot. -/
theorem c1_counterexample :
    escapesSlot "</script><img src=x onerror=alert(1)>" [] "ember-frame-0-0" =
      true := by
  decide

/-- C1 (amended): the user code is embedded only as a JSON-encoded string
literal invoked through the Function constructor, and that encoding
neutralizes the string-literal delimiters (quotes, backslashes, control
characters) — so any source without `<` (in particular sources full of
backticks and quotes) stays confined to its slot; but the encoding leaves
`<` and `/` verbatim, so a source containing `</script>` escapes the
enclosing script element (see the counterexample). -/
theorem c1_theorem :
    ∀ code : String, '<' ∉ code.toList →
      escapesSlot code [] "ember-frame-0-0" = false := by
  intro code hlt
  by_contra hne
  have h0 : escapesSlot code [] "ember-frame-0-0" = true := by
    revert hne
    cases hE : escapesSlot code [] "ember-frame-0-0" <;> simp
  rw [escapesSlot] at h0
  have hsplit : ((sandboxDocPre [] "ember-frame-0-0") ++ jsonEncodeString code).toList =
      (sandboxDocPre [] "ember-frame-0-0").toList ++ (jsonEncodeString code).toList :=
    String.data_append _ _
  rw [hsplit] at h0
  set pre := (sandboxDocPre [] "ember-frame-0-0").toList with hpre
  set enc := (jsonEncodeString code).toList with henc
  set pat := "</script>".toList with hpat
  obtain ⟨i, hocc⟩ := (containsSub_iff _ _).1 h0
  by_cases h1 : i + pat.length ≤ pre.length
  · have hoccPre := occursAt_append_left h1 hocc
    have hc : containsSub pre pat = true := (containsSub_iff _ _).2 ⟨i, hoccPre⟩
    have hclean : containsSub pre pat = false := by
      rw [hpre, hpat]; exact sandboxPre_clean
    rw [hc] at hclean
    simp at hclean
  · by_cases h2 : i < pre.length
    · have htot := occursAt_length (by rw [hpat]; decide) hocc
      rw [List.length_append] at htot
      have hk : pre.length - i < pat.length := by omega
      have hchar := occursAt_getElem? hocc (pre.length - i) hk
      rw [show i + (pre.length - i) = pre.length from by omega] at hchar
      rw [List.getElem?_append_right (le_refl pre.length), Nat.sub_self] at hchar
      have henc0 : enc[0]? = some dquote := by
        rw [henc]
        unfold jsonEncodeString
        rw [List.toList_asString]
        simp
      rw [henc0] at hchar
      have hmem : dquote ∈ pat := mem_of_getElem?_eq hchar.symm
      rw [hpat] at hmem
      exact absurd hmem (by decide)
    · push_neg at h2
      have hin := occursAt_append_right h2 hocc
      have hpat0 : pat[0]? = some '<' := by rw [hpat]; rfl
      have hchar := occursAt_getElem? hin 0 (by rw [hpat]; decide)
      rw [Nat.add_zero, hpat0] at hchar
      have hmem : '<' ∈ enc := mem_of_getElem?_eq hchar
      rw [henc] at hmem
      rcases mem_jsonEncode hmem with h3 | h3 | h3
      · exact absurd h3 (by decide)
      · exact absurd h3 hlt
      · exact absurd h3 (by decide)

/-- C9: for an untagged or ambiguous fragment — fence class naming neither
the script language (`javascript`, `lang-js`, `js`) nor a markup/style
language (`html`, `xml`, `css`) — the Content Classifier marks the
fragment executable exactly when at least 2 of its 7 content signals fire
AND it does not begin with a markup tag AND does not begin with a
style-rule-like line. -/
theorem c9_theorem :
    ∀ (className codeContent : String),
      jsIncludes className "javascript" = false →
      jsIncludes className "lang-js" = false →
      jsIncludes className "js" = false →
      jsIncludes className "html" = false →
      jsIncludes className "xml" = false →
      jsIncludes className "css" = false →
      ((detectJavaScriptContent className codeContent).isJavaScript = true ↔
        (2 ≤ (detectJavaScriptContent className codeContent).contentBasedScore ∧
          beginsHtmlTag codeContent = false ∧
          beginsCssRule codeContent = false)) := by
  intro cn cc h1 h2 h3 h4 h5 h6
  unfold detectJavaScriptContent
  simp only [h1, h2, h3, h4, h5, h6, Bool.or_self, Bool.false_or,
    Bool.or_false, Bool.false_and, Bool.and_false, Bool.not_false,
    Bool.true_and, Bool.and_true, Bool.and_eq_true, decide_eq_true_eq,
    Bool.not_eq_true']
  tauto

/-- Witness for C9: an untagged fragment with two firing signals
(JS keywords and built-in method calls) is classified executable. -/
theorem c9_witness :
    jsIncludes "" "js" = false ∧
    ((detectJavaScriptContent "" "const x = 1;\nconsole.log(x);").isJavaScript = true ↔
      (2 ≤ (detectJavaScriptContent "" "const x = 1;\nconsole.log(x);").contentBasedScore ∧
        beginsHtmlTag "const x = 1;\nconsole.log(x);" = false ∧
        beginsCssRule "const x = 1;\nconsole.log(x);" = false)) :=
  ⟨by decide,
   c9_theorem "" "const x = 1;\nconsole.log(x);" (by decide) (by decide)
     (by decide) (by decide) (by decide) (by decide)⟩

/-- Witness for C1: an ordinary source full of quotes and backticks stays
in its slot. -/
theorem c1_witness :
    ('<' ∉ "const s = `tick $\x7bx\x7d`; d.title = \"q\";".toList) ∧
    escapesSlot "const s = `tick $\x7bx\x7d`; d.title = \"q\";" [] "ember-frame-0-0" =
      false :=
  ⟨by decide, c1_theorem _ (by decide)⟩

end Ember
